import Mathlib

/-!
Verification of the claim/evidence graph core of the `trees` repository
(package `graph` in `graph/git_exec.go`, package `store`).

Modelling conventions:
* Go `map[string]*T` is modelled as an association list `List (String × T)`
  with insert-or-replace (`mapInsert`) and delete (`mapErase`); lookup is
  `List.lookup`.
* `time.Time` timestamps are modelled as `Nat`; `time.Now()` is an explicit
  `now` argument.
* `newID()` (16 random bytes, hex-encoded) is modelled by passing the drawn
  id as an explicit argument to `AddEvidence`/`AddClaim`; the uniqueness of
  the 128-bit random draws is expressed, where a claim needs it, by a
  freshness hypothesis on the trace of drawn ids.
* The `GitChecker` interface (one method `HasFileChangedSince(commit,
  filePath) (bool, error)`) is modelled as a function
  `String → String → Except String Bool`.
* Go errors are modelled as `Except String`; a `nil`-pointer result of a
  lookup is `Option`.
* `filepath.IsAbs` on the Unix build used by the repository is
  "starts with a slash".
-/

/-- `EvidenceNode` from `graph/git_exec.go`. -/
structure EvidenceNode where
  ID : String
  FilePath : String
  LineRef : String
  GitCommit : String
  CreatedAt : Nat
deriving DecidableEq, Repr

/-- `ClaimNode` from `graph/git_exec.go`. -/
structure ClaimNode where
  ID : String
  Content : String
  CreatedAt : Nat
deriving DecidableEq, Repr

/-- `Edge` from `graph/git_exec.go`. -/
structure Edge where
  ClaimID : String
  EvidenceID : String
deriving DecidableEq, Repr

/-- `Graph` from `graph/git_exec.go`; the two Go maps are association lists. -/
structure Graph where
  Evidence : List (String × EvidenceNode)
  Claims : List (String × ClaimNode)
  Edges : List Edge
deriving DecidableEq, Repr

/-- Go map assignment `m[k] = v`: replace the binding if the key is present,
otherwise add it. -/
def mapInsert {α : Type} (m : List (String × α)) (k : String) (v : α) : List (String × α) :=
  match m with
  | [] => [(k, v)]
  | (k', v') :: rest => if k' = k then (k, v) :: rest else (k', v') :: mapInsert rest k v

/-- Go `delete(m, k)`. -/
def mapErase {α : Type} (m : List (String × α)) (k : String) : List (String × α) :=
  match m with
  | [] => []
  | (k', v') :: rest => if k' = k then mapErase rest k else (k', v') :: mapErase rest k

/-- `graph.New()`. -/
def Graph.New : Graph :=
  { Evidence := [], Claims := [], Edges := [] }

/-- `filepath.IsAbs` (Unix): the path is non-empty and begins with a slash. -/
def isAbs (p : String) : Bool :=
  match p.data with
  | [] => false
  | c :: _ => c = '/'

/-- `Graph.AddEvidence`: rejects a relative path or an empty commit by
returning `none`; otherwise builds a node from the drawn `id` and current
time and stores it under its id. -/
def Graph.AddEvidence (g : Graph) (filePath lineRef gitCommit : String)
    (id : String) (now : Nat) : Option EvidenceNode × Graph :=
  if ¬ isAbs filePath then (none, g)
  else if gitCommit = "" then (none, g)
  else
    let ev : EvidenceNode :=
      { ID := id, FilePath := filePath, LineRef := lineRef,
        GitCommit := gitCommit, CreatedAt := now }
    (some ev, { g with Evidence := mapInsert g.Evidence ev.ID ev })

/-- `Graph.AddClaim`: always succeeds, storing a node built from the drawn
`id` and current time. -/
def Graph.AddClaim (g : Graph) (content : String) (id : String) (now : Nat) :
    ClaimNode × Graph :=
  let claim : ClaimNode := { ID := id, Content := content, CreatedAt := now }
  (claim, { g with Claims := mapInsert g.Claims claim.ID claim })

/-- `Graph.LinkEvidence`: errors when either endpoint is unknown, otherwise
appends a new edge unconditionally. -/
def Graph.LinkEvidence (g : Graph) (claimID evidenceID : String) :
    Except String Graph :=
  if (List.lookup claimID g.Claims).isNone then
    Except.error ("claim \"" ++ claimID ++ "\" not found")
  else if (List.lookup evidenceID g.Evidence).isNone then
    Except.error ("evidence \"" ++ evidenceID ++ "\" not found")
  else
    Except.ok { g with Edges := g.Edges ++ [{ ClaimID := claimID, EvidenceID := evidenceID }] }

/-- `Graph.GetEvidenceForClaim`: linear scan of the edges in order; an edge
whose evidence id has no stored node contributes nothing. -/
def Graph.GetEvidenceForClaim (g : Graph) (claimID : String) : List EvidenceNode :=
  g.Edges.filterMap (fun edge =>
    if edge.ClaimID = claimID then List.lookup edge.EvidenceID g.Evidence else none)

/-- `Graph.GetEvidence`: direct map lookup. -/
def Graph.GetEvidence (g : Graph) (id : String) : Option EvidenceNode :=
  List.lookup id g.Evidence

/-- `Graph.GetClaim`: direct map lookup. -/
def Graph.GetClaim (g : Graph) (id : String) : Option ClaimNode :=
  List.lookup id g.Claims

/-- The `GitChecker` capability `HasFileChangedSince(commit, filePath)`. -/
def GitChecker : Type :=
  String → String → Except String Bool

/-- `Graph.CheckEvidence`: not-found error for an unknown id; otherwise asks
the checker and negates "changed", propagating any checker error unchanged. -/
def Graph.CheckEvidence (g : Graph) (id : String) (checker : GitChecker) :
    Except String Bool :=
  match List.lookup id g.Evidence with
  | none => Except.error ("evidence \"" ++ id ++ "\" not found")
  | some ev =>
    match checker ev.GitCommit ev.FilePath with
    | Except.error e => Except.error e
    | Except.ok changed => Except.ok (!changed)

/-- Modelled from the spec: `DeleteClaim` is absent from the sources (only
its tests and HTTP callers are present). Spec §4.1: "removes the claim if
present, removes every edge whose ClaimID equals id, returns whether
anything was removed; evidence nodes are untouched". -/
def Graph.DeleteClaim (g : Graph) (id : String) : Bool × Graph :=
  if (List.lookup id g.Claims).isSome then
    (true, { g with Claims := mapErase g.Claims id,
                    Edges := g.Edges.filter (fun e => e.ClaimID ≠ id) })
  else (false, g)

/-- Modelled from the spec: `DeleteEvidence` is absent from the sources.
Spec §4.1: "symmetric — removes the evidence node and every edge whose
EvidenceID equals id; claim nodes are untouched". -/
def Graph.DeleteEvidence (g : Graph) (id : String) : Bool × Graph :=
  if (List.lookup id g.Evidence).isSome then
    (true, { g with Evidence := mapErase g.Evidence id,
                    Edges := g.Edges.filter (fun e => e.EvidenceID ≠ id) })
  else (false, g)

/-- Modelled from the spec: `UpdateClaim` is absent from the sources.
Spec §4.1: "replaces Content only if the claim exists; ID and CreatedAt are
preserved". -/
def Graph.UpdateClaim (g : Graph) (id newContent : String) :
    Option ClaimNode × Graph :=
  match List.lookup id g.Claims with
  | none => (none, g)
  | some c =>
    let c' : ClaimNode := { c with Content := newContent }
    (some c', { g with Claims := mapInsert g.Claims id c' })

/-- Case-folding of a string, character by character (`strings.ToLower`). -/
def lowerStr (s : String) : String :=
  String.mk (s.data.map Char.toLower)

/-- `strings.Contains` at the character-list level. -/
def containsSub (hay needle : List Char) : Bool :=
  (List.range (hay.length + 1)).any (fun i => needle.isPrefixOf (hay.drop i))

/-- Modelled from the spec: `SearchClaims` is absent from the sources.
Spec §4.1: "returns every claim whose Content contains `query` as a
case-insensitive substring", in storage order. -/
def Graph.SearchClaims (g : Graph) (query : String) : List ClaimNode :=
  (g.Claims.map Prod.snd).filter
    (fun c => containsSub (lowerStr c.Content).data (lowerStr query).data)

/-- JSON values, at the level the snapshot format uses. The `Store` reads
and writes files through `encoding/json`; the file contents are modelled as
a `Json` value (a file that is not even syntactically valid JSON is a load
error in Go just as a structurally ill-formed value is here). -/
inductive Json where
  | str (s : String)
  | num (n : Nat)
  | arr (xs : List Json)
  | obj (fields : List (String × Json))
deriving Repr

/-- JSON encoding of an `EvidenceNode` with the struct's json tags. -/
def encodeEvidenceNode (ev : EvidenceNode) : Json :=
  Json.obj [("id", Json.str ev.ID), ("file_path", Json.str ev.FilePath),
            ("line_ref", Json.str ev.LineRef), ("git_commit", Json.str ev.GitCommit),
            ("created_at", Json.num ev.CreatedAt)]

/-- JSON encoding of a `ClaimNode` with the struct's json tags. -/
def encodeClaimNode (c : ClaimNode) : Json :=
  Json.obj [("id", Json.str c.ID), ("content", Json.str c.Content),
            ("created_at", Json.num c.CreatedAt)]

/-- JSON encoding of an `Edge` with the struct's json tags. -/
def encodeEdge (e : Edge) : Json :=
  Json.obj [("claim_id", Json.str e.ClaimID), ("evidence_id", Json.str e.EvidenceID)]

/-- Read a string field the way `json.Unmarshal` fills a struct: an absent
field keeps the zero value, a field of the wrong type is an error. -/
def getStr (fields : List (String × Json)) (k : String) : Option String :=
  match List.lookup k fields with
  | none => some ""
  | some (Json.str s) => some s
  | some _ => none

/-- Read a numeric field; absent keeps the zero value, wrong type errors. -/
def getNat (fields : List (String × Json)) (k : String) : Option Nat :=
  match List.lookup k fields with
  | none => some 0
  | some (Json.num n) => some n
  | some _ => none

/-- Decode an `EvidenceNode` from its JSON object. -/
def decodeEvidenceNode (j : Json) : Option EvidenceNode :=
  match j with
  | Json.obj fields => do
    let i ← getStr fields "id"
    let fp ← getStr fields "file_path"
    let lr ← getStr fields "line_ref"
    let gc ← getStr fields "git_commit"
    let ca ← getNat fields "created_at"
    some { ID := i, FilePath := fp, LineRef := lr, GitCommit := gc, CreatedAt := ca }
  | _ => none

/-- Decode a `ClaimNode` from its JSON object. -/
def decodeClaimNode (j : Json) : Option ClaimNode :=
  match j with
  | Json.obj fields => do
    let i ← getStr fields "id"
    let ct ← getStr fields "content"
    let ca ← getNat fields "created_at"
    some { ID := i, Content := ct, CreatedAt := ca }
  | _ => none

/-- Decode an `Edge` from its JSON object. -/
def decodeEdge (j : Json) : Option Edge :=
  match j with
  | Json.obj fields => do
    let c ← getStr fields "claim_id"
    let e ← getStr fields "evidence_id"
    some { ClaimID := c, EvidenceID := e }
  | _ => none

/-- Serialize the whole graph, as `json.Marshal` does for the `Graph`
struct: the two maps become objects keyed by id, the edges an array. -/
def encodeGraph (g : Graph) : Json :=
  Json.obj [("evidence", Json.obj (g.Evidence.map (fun p => (p.1, encodeEvidenceNode p.2)))),
            ("claims", Json.obj (g.Claims.map (fun p => (p.1, encodeClaimNode p.2)))),
            ("edges", Json.arr (g.Edges.map encodeEdge))]

/-- Decode the evidence map of a snapshot; an absent field leaves the empty
map that `json.Unmarshal` found in the freshly constructed graph. -/
def decodeEvidenceMap (fields : List (String × Json)) :
    Option (List (String × EvidenceNode)) :=
  match List.lookup "evidence" fields with
  | none => some []
  | some (Json.obj entries) =>
    entries.mapM (fun p => (decodeEvidenceNode p.2).map (fun n => (p.1, n)))
  | some _ => none

/-- Decode the claims map of a snapshot. -/
def decodeClaimsMap (fields : List (String × Json)) :
    Option (List (String × ClaimNode)) :=
  match List.lookup "claims" fields with
  | none => some []
  | some (Json.obj entries) =>
    entries.mapM (fun p => (decodeClaimNode p.2).map (fun n => (p.1, n)))
  | some _ => none

/-- Decode the edge list of a snapshot. -/
def decodeEdgeList (fields : List (String × Json)) : Option (List Edge) :=
  match List.lookup "edges" fields with
  | none => some []
  | some (Json.arr xs) => xs.mapM decodeEdge
  | some _ => none

/-- Decode a whole snapshot, as `json.Unmarshal` into a fresh `Graph`. -/
def decodeGraph (j : Json) : Option Graph :=
  match j with
  | Json.obj fields => do
    let ev ← decodeEvidenceMap fields
    let cl ← decodeClaimsMap fields
    let ed ← decodeEdgeList fields
    some { Evidence := ev, Claims := cl, Edges := ed }
  | _ => none

/-- `Store.Save`: serialize the entire graph to the configured path. The
file system is modelled as the written value itself. -/
def Store.Save (g : Graph) : Json :=
  encodeGraph g

/-- `Store.load`: a missing file (`none`) is not an error and leaves the
graph as constructed; an existing file must decode. -/
def Store.load (g : Graph) (file : Option Json) : Option Graph :=
  match file with
  | none => some g
  | some j => decodeGraph j

/-- `store.New(path)`: construct an empty graph, then load the snapshot at
the path; the file contents stand in for the path. -/
def Store.New (file : Option Json) : Option Graph :=
  Store.load Graph.New file

/-- One mutating graph operation, with the random id draw (and clock
reading) of an add made explicit. -/
inductive Op where
  | addEvidence (filePath lineRef gitCommit id : String) (now : Nat)
  | addClaim (content id : String) (now : Nat)
  | linkEvidence (claimID evidenceID : String)
  | deleteClaim (id : String)
  | deleteEvidence (id : String)
  | updateClaim (id content : String)
deriving DecidableEq, Repr

/-- The state reached after an operation; a failed `LinkEvidence` leaves the
graph untouched, exactly as the code returns before mutating. -/
def applyOp (g : Graph) : Op → Graph
  | Op.addEvidence fp lr gc id now => (g.AddEvidence fp lr gc id now).2
  | Op.addClaim content id now => (g.AddClaim content id now).2
  | Op.linkEvidence c e =>
    match g.LinkEvidence c e with
    | Except.ok g' => g'
    | Except.error _ => g
  | Op.deleteClaim id => (g.DeleteClaim id).2
  | Op.deleteEvidence id => (g.DeleteEvidence id).2
  | Op.updateClaim id content => (g.UpdateClaim id content).2

/-- The state after a sequence of operations. -/
def applyTrace (g : Graph) (ops : List Op) : Graph :=
  ops.foldl applyOp g

/-- The ids drawn by `newID()` during an operation. -/
def opDraws : Op → List String
  | Op.addEvidence _ _ _ id _ => [id]
  | Op.addClaim _ id _ => [id]
  | _ => []

/-- All ids present in a graph. -/
def allIds (g : Graph) : List String :=
  g.Evidence.map Prod.fst ++ g.Claims.map Prod.fst

/-- The 128-bit random draws never repeat: each id drawn along the trace
differs from every id in `used` and from every earlier draw. -/
def traceFresh (used : List String) : List Op → Bool
  | [] => true
  | op :: rest =>
    (opDraws op).all (fun x => ¬ used.contains x) &&
      traceFresh (used ++ opDraws op) rest

/-- All ids drawn along a trace. -/
def allDraws (ops : List Op) : List String :=
  ops.foldr (fun op acc => opDraws op ++ acc) []

/-- The number of edges between a given claim id and evidence id. -/
def edgeCount (g : Graph) (c e : String) : Nat :=
  g.Edges.countP (fun ed => decide (ed.ClaimID = c ∧ ed.EvidenceID = e))

/-- A sample evidence node, for witnesses. -/
def evSample : EvidenceNode :=
  { ID := "ev1", FilePath := "/repo/auth.go", LineRef := "10-25",
    GitCommit := "abc123", CreatedAt := 1 }

/-- A sample claim node, for witnesses. -/
def claimSample : ClaimNode :=
  { ID := "c1", Content := "The Authentication Module", CreatedAt := 2 }

/-- A one-evidence graph, for witnesses. -/
def gSample1 : Graph :=
  { Evidence := [("ev1", evSample)], Claims := [], Edges := [] }

/-- A graph with one claim, one evidence node and one edge, for witnesses. -/
def gSample2 : Graph :=
  { Evidence := [("ev1", evSample)], Claims := [("c1", claimSample)],
    Edges := [{ ClaimID := "c1", EvidenceID := "ev1" }] }

/-- The same graph without the edge, for witnesses. -/
def gSample3 : Graph :=
  { Evidence := [("ev1", evSample)], Claims := [("c1", claimSample)], Edges := [] }

/-- A checker that reports every file unchanged, for witnesses. -/
def checkerUnchanged : GitChecker := fun _ _ => Except.ok false

theorem lookup_mapInsert_self {α : Type} (m : List (String × α)) (k : String) (v : α) :
    List.lookup k (mapInsert m k v) = some v := by
  induction m with
  | nil => simp [mapInsert, List.lookup]
  | cons p rest ih =>
    obtain ⟨k', v'⟩ := p
    by_cases h : k' = k
    · simp [mapInsert, h, List.lookup]
    · simp [mapInsert, h, List.lookup, beq_eq_false_iff_ne.mpr (Ne.symm h), ih]

theorem lookup_mapInsert_ne {α : Type} (m : List (String × α)) (k k' : String) (v : α)
    (h : k' ≠ k) : List.lookup k' (mapInsert m k v) = List.lookup k' m := by
  induction m with
  | nil => simp [mapInsert, List.lookup, beq_eq_false_iff_ne.mpr h]
  | cons p rest ih =>
    obtain ⟨ka, va⟩ := p
    by_cases hk : ka = k
    · subst hk
      simp [mapInsert, List.lookup, beq_eq_false_iff_ne.mpr h]
    · simp [mapInsert, hk, List.lookup, ih]

theorem lookup_mapErase_self {α : Type} (m : List (String × α)) (k : String) :
    List.lookup k (mapErase m k) = none := by
  induction m with
  | nil => simp [mapErase, List.lookup]
  | cons p rest ih =>
    obtain ⟨ka, va⟩ := p
    by_cases hk : ka = k
    · simpa [mapErase, hk] using ih
    · simp [mapErase, hk, List.lookup, beq_eq_false_iff_ne.mpr (Ne.symm hk), ih]

theorem lookup_mapErase_ne {α : Type} (m : List (String × α)) (k k' : String)
    (h : k' ≠ k) : List.lookup k' (mapErase m k) = List.lookup k' m := by
  induction m with
  | nil => simp [mapErase, List.lookup]
  | cons p rest ih =>
    obtain ⟨ka, va⟩ := p
    by_cases hk : ka = k
    · subst hk
      simp [mapErase, List.lookup, beq_eq_false_iff_ne.mpr h, ih]
    · by_cases hk' : k' = ka
      · subst hk'
        simp [mapErase, hk, List.lookup]
      · simp [mapErase, hk, List.lookup, beq_eq_false_iff_ne.mpr hk', ih]

theorem lookup_mem_keys {α : Type} (m : List (String × α)) (x : String) (n : α)
    (h : List.lookup x m = some n) : x ∈ m.map Prod.fst := by
  induction m with
  | nil => simp [List.lookup] at h
  | cons p rest ih =>
    obtain ⟨k, v⟩ := p
    by_cases hk : x = k
    · simp [hk]
    · simp [List.lookup, beq_eq_false_iff_ne.mpr hk] at h
      simp [ih h]

/-- C1: `CheckEvidence(id, checker)` returns `(true, nil)` when `id` names a
stored evidence node and the checker reports the file unchanged since the
recorded commit, `(false, nil)` when the checker reports a change, an error
when `id` names no stored evidence node, and the checker's own error
propagated unchanged when the checker errors. -/
theorem CheckEvidence_contract (g : Graph) (id : String) (checker : GitChecker) :
    (∀ ev, List.lookup id g.Evidence = some ev →
      (checker ev.GitCommit ev.FilePath = Except.ok false →
        g.CheckEvidence id checker = Except.ok true) ∧
      (checker ev.GitCommit ev.FilePath = Except.ok true →
        g.CheckEvidence id checker = Except.ok false) ∧
      (∀ e, checker ev.GitCommit ev.FilePath = Except.error e →
        g.CheckEvidence id checker = Except.error e)) ∧
    (List.lookup id g.Evidence = none →
      ∃ msg, g.CheckEvidence id checker = Except.error msg) := by
  constructor
  · intro ev hev
    refine ⟨?_, ?_, ?_⟩
    · intro h
      simp [Graph.CheckEvidence, hev, h]
    · intro h
      simp [Graph.CheckEvidence, hev, h]
    · intro e h
      simp [Graph.CheckEvidence, hev, h]
  · intro h
    exact ⟨"evidence \"" ++ id ++ "\" not found", by simp [Graph.CheckEvidence, h]⟩

/-- Witness for C1 on a concrete graph and checker. -/
theorem CheckEvidence_contract_witness :
    Graph.CheckEvidence gSample1 "ev1" checkerUnchanged = Except.ok true :=
  ((CheckEvidence_contract gSample1 "ev1" checkerUnchanged).1 evSample rfl).1 rfl

/-- C2: `AddEvidence` returns `none` exactly when the path is not absolute
or the commit is empty, leaving the graph unchanged in that case; for an
absolute path and non-empty commit it returns a node carrying the drawn id
and exactly the given fields, and that id resolves via `GetEvidence`. -/
theorem AddEvidence_contract (g : Graph) (filePath lineRef gitCommit id : String)
    (now : Nat) :
    ((g.AddEvidence filePath lineRef gitCommit id now).1 = none ↔
      isAbs filePath = false ∨ gitCommit = "") ∧
    ((g.AddEvidence filePath lineRef gitCommit id now).1 = none →
      (g.AddEvidence filePath lineRef gitCommit id now).2 = g) ∧
    (isAbs filePath = true → gitCommit ≠ "" →
      ∃ ev, (g.AddEvidence filePath lineRef gitCommit id now).1 = some ev ∧
        ev.ID = id ∧ ev.FilePath = filePath ∧ ev.LineRef = lineRef ∧
        ev.GitCommit = gitCommit ∧ ev.CreatedAt = now ∧
        (g.AddEvidence filePath lineRef gitCommit id now).2.GetEvidence id = some ev) := by
  by_cases habs : isAbs filePath
  · by_cases hgc : gitCommit = ""
    · refine ⟨?_, ?_, ?_⟩
      · simp [Graph.AddEvidence, habs, hgc]
      · simp [Graph.AddEvidence, habs, hgc]
      · intro _ h
        exact absurd hgc h
    · refine ⟨?_, ?_, ?_⟩
      · simp [Graph.AddEvidence, habs, hgc]
      · simp [Graph.AddEvidence, habs, hgc]
      · intro _ _
        refine ⟨{ ID := id, FilePath := filePath, LineRef := lineRef,
                  GitCommit := gitCommit, CreatedAt := now },
                ?_, rfl, rfl, rfl, rfl, rfl, ?_⟩
        · simp [Graph.AddEvidence, habs, hgc]
        · simp [Graph.AddEvidence, habs, hgc, Graph.GetEvidence,
                lookup_mapInsert_self]
  · refine ⟨?_, ?_, ?_⟩
    · simp [Graph.AddEvidence, habs]
    · simp [Graph.AddEvidence, habs]
    · intro h
      exact absurd h (by simp [habs])

/-- Witness for C2: a rejected relative path and an accepted absolute one. -/
theorem AddEvidence_contract_witness :
    ((Graph.New.AddEvidence "relative/auth.go" "1-3" "abc" "id0" 5).1 = none ↔
      isAbs "relative/auth.go" = false ∨ "abc" = "") ∧
    ∃ ev, (Graph.New.AddEvidence "/abs/auth.go" "10-25" "abc123" "id1" 7).1 = some ev ∧
      ev.ID = "id1" ∧ ev.FilePath = "/abs/auth.go" ∧ ev.LineRef = "10-25" ∧
      ev.GitCommit = "abc123" ∧ ev.CreatedAt = 7 ∧
      (Graph.New.AddEvidence "/abs/auth.go" "10-25" "abc123" "id1" 7).2.GetEvidence "id1" =
        some ev :=
  ⟨(AddEvidence_contract Graph.New "relative/auth.go" "1-3" "abc" "id0" 5).1,
   (AddEvidence_contract Graph.New "/abs/auth.go" "10-25" "abc123" "id1" 7).2.2
     (by decide) (by decide)⟩

/-- C10: every element of `GetEvidenceForClaim` is an evidence node stored
in the graph's evidence map — an edge whose evidence id resolves to nothing
is silently skipped and never yields an absent entry. -/
theorem GetEvidenceForClaim_members (g : Graph) (claimID : String) :
    ∀ ev ∈ g.GetEvidenceForClaim claimID,
      ∃ eid, List.lookup eid g.Evidence = some ev := by
  intro ev hmem
  simp only [Graph.GetEvidenceForClaim, List.mem_filterMap] at hmem
  obtain ⟨edge, _, hif⟩ := hmem
  by_cases h : edge.ClaimID = claimID
  · exact ⟨edge.EvidenceID, by simpa [h] using hif⟩
  · simp [h] at hif

/-- Witness for C10 on a concrete graph. -/
theorem GetEvidenceForClaim_members_witness :
    ∃ eid, List.lookup eid gSample2.Evidence = some evSample :=
  GetEvidenceForClaim_members gSample2 "c1" evSample (by decide)

/-- C8: constructing a store over a missing file succeeds with the empty
graph, and constructing it over a file that does not decode as a snapshot
is an error. -/
theorem StoreNew_contract :
    Store.New none = some Graph.New ∧
    ∀ j, decodeGraph j = none → Store.New (some j) = none := by
  refine ⟨rfl, ?_⟩
  intro j h
  simp [Store.New, Store.load, h]

/-- Witness for C8: a number is not a snapshot, so loading it fails. -/
theorem StoreNew_contract_witness :
    Store.New (some (Json.num 5)) = none :=
  StoreNew_contract.2 (Json.num 5) rfl

/-- C4: deleting a stored claim returns `true`, removes exactly that claim,
removes exactly the edges whose `ClaimID` equals the id, and leaves every
evidence node retrievable; deleting an unknown id returns `false` and
changes nothing. -/
theorem DeleteClaim_contract (g : Graph) (id : String) :
    (∀ c, List.lookup id g.Claims = some c →
      (g.DeleteClaim id).1 = true ∧
      (g.DeleteClaim id).2.GetClaim id = none ∧
      (∀ x, x ≠ id → (g.DeleteClaim id).2.GetClaim x = g.GetClaim x) ∧
      (∀ e ∈ (g.DeleteClaim id).2.Edges, e.ClaimID ≠ id) ∧
      (∀ e ∈ g.Edges, e.ClaimID ≠ id → e ∈ (g.DeleteClaim id).2.Edges) ∧
      (∀ e ∈ (g.DeleteClaim id).2.Edges, e ∈ g.Edges) ∧
      (∀ x, (g.DeleteClaim id).2.GetEvidence x = g.GetEvidence x)) ∧
    (List.lookup id g.Claims = none → g.DeleteClaim id = (false, g)) := by
  constructor
  · intro c hc
    have hsome : (List.lookup id g.Claims).isSome = true := by simp [hc]
    refine ⟨?_, ?_, ?_, ?_, ?_, ?_, ?_⟩
    · simp [Graph.DeleteClaim, hsome]
    · simp [Graph.DeleteClaim, hsome, Graph.GetClaim, lookup_mapErase_self]
    · intro x hx
      simp [Graph.DeleteClaim, hsome, Graph.GetClaim, lookup_mapErase_ne _ _ _ hx]
    · intro e he
      simp [Graph.DeleteClaim, hsome, List.mem_filter] at he
      exact he.2
    · intro e he hne
      simp [Graph.DeleteClaim, hsome, List.mem_filter]
      exact ⟨he, hne⟩
    · intro e he
      simp [Graph.DeleteClaim, hsome, List.mem_filter] at he
      exact he.1
    · intro x
      simp [Graph.DeleteClaim, hsome, Graph.GetEvidence]
  · intro h
    simp [Graph.DeleteClaim, h]

/-- Witness for C4 on a concrete one-of-each graph. -/
theorem DeleteClaim_contract_witness :
    (gSample2.DeleteClaim "c1").1 = true ∧
    (gSample2.DeleteClaim "c1").2.GetClaim "c1" = none ∧
    (∀ x, (gSample2.DeleteClaim "c1").2.GetEvidence x = gSample2.GetEvidence x) := by
  have h := (DeleteClaim_contract gSample2 "c1").1 claimSample rfl
  exact ⟨h.1, h.2.1, h.2.2.2.2.2.2⟩

/-- C7: updating a stored claim replaces its content while preserving its id
and creation time, touching no other claim, no evidence node and no edge;
updating an unknown id returns `none` and changes nothing. -/
theorem UpdateClaim_contract (g : Graph) (id newContent : String) :
    (∀ c, List.lookup id g.Claims = some c →
      ∃ c', (g.UpdateClaim id newContent).1 = some c' ∧
        c'.ID = c.ID ∧ c'.CreatedAt = c.CreatedAt ∧ c'.Content = newContent ∧
        (g.UpdateClaim id newContent).2.GetClaim id = some c' ∧
        (∀ x, x ≠ id → (g.UpdateClaim id newContent).2.GetClaim x = g.GetClaim x) ∧
        (g.UpdateClaim id newContent).2.Evidence = g.Evidence ∧
        (g.UpdateClaim id newContent).2.Edges = g.Edges) ∧
    (List.lookup id g.Claims = none → g.UpdateClaim id newContent = (none, g)) := by
  constructor
  · intro c hc
    refine ⟨{ c with Content := newContent }, ?_, rfl, rfl, rfl, ?_, ?_, ?_, ?_⟩
    · simp [Graph.UpdateClaim, hc]
    · simp [Graph.UpdateClaim, hc, Graph.GetClaim, lookup_mapInsert_self]
    · intro x hx
      simp [Graph.UpdateClaim, hc, Graph.GetClaim, lookup_mapInsert_ne _ _ _ _ hx]
    · simp [Graph.UpdateClaim, hc]
    · simp [Graph.UpdateClaim, hc]
  · intro h
    simp [Graph.UpdateClaim, h]

/-- Witness for C7 on a concrete graph. -/
theorem UpdateClaim_contract_witness :
    ∃ c', (gSample2.UpdateClaim "c1" "rewritten").1 = some c' ∧
      c'.ID = claimSample.ID ∧ c'.CreatedAt = claimSample.CreatedAt ∧
      c'.Content = "rewritten" ∧
      (gSample2.UpdateClaim "c1" "rewritten").2.GetClaim "c1" = some c' ∧
      (∀ x, x ≠ "c1" → (gSample2.UpdateClaim "c1" "rewritten").2.GetClaim x =
        gSample2.GetClaim x) ∧
      (gSample2.UpdateClaim "c1" "rewritten").2.Evidence = gSample2.Evidence ∧
      (gSample2.UpdateClaim "c1" "rewritten").2.Edges = gSample2.Edges :=
  (UpdateClaim_contract gSample2 "c1" "rewritten").1 claimSample rfl

/-- Counterexample to C5 as stated: in a graph that already holds one edge
between `c1` and `ev1`, two further `LinkEvidence` calls succeed but leave
three such edges, not exactly two. -/
theorem LinkEvidence_twice_counterexample :
    ∃ g1 g2, gSample2.LinkEvidence "c1" "ev1" = Except.ok g1 ∧
      g1.LinkEvidence "c1" "ev1" = Except.ok g2 ∧
      edgeCount gSample2 "c1" "ev1" = 1 ∧
      edgeCount g2 "c1" "ev1" = 3 := by
  refine ⟨_, _, rfl, rfl, by decide, by decide⟩

/-- C5 (amended): for a graph containing claim `c` and evidence `e`, two
`LinkEvidence(c, e)` calls both succeed and append exactly two new edges
with those endpoints, so exactly two such edges exist whenever the graph
held none before — duplicates are not deduplicated. -/
theorem LinkEvidence_twice_amended (g : Graph) (c e : String)
    (hc : (List.lookup c g.Claims).isSome = true)
    (he : (List.lookup e g.Evidence).isSome = true) :
    ∃ g1 g2, g.LinkEvidence c e = Except.ok g1 ∧
      g1.LinkEvidence c e = Except.ok g2 ∧
      edgeCount g2 c e = edgeCount g c e + 2 ∧
      (edgeCount g c e = 0 → edgeCount g2 c e = 2) := by
  obtain ⟨cl, hcl⟩ := Option.isSome_iff_exists.mp hc
  obtain ⟨ev, hev⟩ := Option.isSome_iff_exists.mp he
  refine ⟨{ g with Edges := g.Edges ++ [{ ClaimID := c, EvidenceID := e }] },
          { g with Edges := (g.Edges ++ [{ ClaimID := c, EvidenceID := e }]) ++
                            [{ ClaimID := c, EvidenceID := e }] },
          ?_, ?_, ?_, ?_⟩
  · simp [Graph.LinkEvidence, hcl, hev]
  · simp [Graph.LinkEvidence, hcl, hev]
  · simp [edgeCount, List.countP_append, List.countP_cons]
  · intro h0
    simp [edgeCount, List.countP_append, List.countP_cons] at h0 ⊢
    exact h0

/-- Witness for the amended C5 on a duplicate-free concrete graph. -/
theorem LinkEvidence_twice_amended_witness :
    ∃ g1 g2, gSample3.LinkEvidence "c1" "ev1" = Except.ok g1 ∧
      g1.LinkEvidence "c1" "ev1" = Except.ok g2 ∧
      edgeCount g2 "c1" "ev1" = edgeCount gSample3 "c1" "ev1" + 2 ∧
      (edgeCount gSample3 "c1" "ev1" = 0 → edgeCount g2 "c1" "ev1" = 2) :=
  LinkEvidence_twice_amended gSample3 "c1" "ev1" (by decide) (by decide)

theorem containsSub_iff (hay needle : List Char) :
    containsSub hay needle = true ↔ ∃ pre post, hay = pre ++ needle ++ post := by
  constructor
  · intro h
    simp only [containsSub, List.any_eq_true, List.mem_range] at h
    obtain ⟨i, _, hpre⟩ := h
    rw [List.isPrefixOf_iff_prefix] at hpre
    obtain ⟨post, hpost⟩ := hpre
    refine ⟨hay.take i, post, ?_⟩
    conv_lhs => rw [← List.take_append_drop i hay, ← hpost]
    rw [List.append_assoc]
  · rintro ⟨pre, post, rfl⟩
    simp only [containsSub, List.any_eq_true, List.mem_range]
    refine ⟨pre.length, ?_, ?_⟩
    · simp only [List.length_append]
      omega
    · rw [List.isPrefixOf_iff_prefix, List.append_assoc, List.drop_left]
      exact List.prefix_append needle post

/-- C6: `SearchClaims(q)` returns exactly the stored claims whose content
contains `q` as a case-insensitive substring — membership in the result is
equivalent to being a stored claim whose case-folded content has the
case-folded query as a factor. -/
theorem SearchClaims_spec (g : Graph) (q : String) (c : ClaimNode) :
    c ∈ g.SearchClaims q ↔
      ((∃ id, (id, c) ∈ g.Claims) ∧
        ∃ pre post, (lowerStr c.Content).data = pre ++ (lowerStr q).data ++ post) := by
  simp only [Graph.SearchClaims, List.mem_filter, List.mem_map]
  constructor
  · rintro ⟨⟨p, hp, rfl⟩, hsub⟩
    exact ⟨⟨p.1, hp⟩, (containsSub_iff _ _).mp hsub⟩
  · rintro ⟨⟨id, hid⟩, hsub⟩
    exact ⟨⟨(id, c), hid, rfl⟩, (containsSub_iff _ _).mpr hsub⟩

/-- Witness for C6: a mixed-case content is found by a lower-case query. -/
theorem SearchClaims_spec_witness :
    claimSample ∈ gSample2.SearchClaims "authentication" :=
  (SearchClaims_spec gSample2 "authentication" claimSample).mpr
    ⟨⟨"c1", by decide⟩,
     ⟨"the ".data, " module".data, by decide⟩⟩

theorem mapM_map_some {α β : Type} (l : List α) (f : α → β) (g : β → Option α)
    (h : ∀ a ∈ l, g (f a) = some a) : (l.map f).mapM g = some l := by
  induction l with
  | nil => rfl
  | cons a rest ih =>
    rw [List.map_cons, List.mapM_cons, h a (by simp), ih (fun b hb => h b (by simp [hb]))]
    rfl

theorem decode_encode_evidenceMap (g : Graph) :
    decodeEvidenceMap
      [("evidence", Json.obj (g.Evidence.map (fun p => (p.1, encodeEvidenceNode p.2)))),
       ("claims", Json.obj (g.Claims.map (fun p => (p.1, encodeClaimNode p.2)))),
       ("edges", Json.arr (g.Edges.map encodeEdge))] = some g.Evidence := by
  show (g.Evidence.map (fun p => (p.1, encodeEvidenceNode p.2))).mapM
    (fun p => (decodeEvidenceNode p.2).map (fun n => (p.1, n))) = some g.Evidence
  exact mapM_map_some _ _ _ (fun a _ => rfl)

theorem decode_encode_claimsMap (g : Graph) :
    decodeClaimsMap
      [("evidence", Json.obj (g.Evidence.map (fun p => (p.1, encodeEvidenceNode p.2)))),
       ("claims", Json.obj (g.Claims.map (fun p => (p.1, encodeClaimNode p.2)))),
       ("edges", Json.arr (g.Edges.map encodeEdge))] = some g.Claims := by
  show (g.Claims.map (fun p => (p.1, encodeClaimNode p.2))).mapM
    (fun p => (decodeClaimNode p.2).map (fun n => (p.1, n))) = some g.Claims
  exact mapM_map_some _ _ _ (fun a _ => rfl)

theorem decode_encode_edgeList (g : Graph) :
    decodeEdgeList
      [("evidence", Json.obj (g.Evidence.map (fun p => (p.1, encodeEvidenceNode p.2)))),
       ("claims", Json.obj (g.Claims.map (fun p => (p.1, encodeClaimNode p.2)))),
       ("edges", Json.arr (g.Edges.map encodeEdge))] = some g.Edges := by
  show (g.Edges.map encodeEdge).mapM decodeEdge = some g.Edges
  exact mapM_map_some _ _ _ (fun a _ => rfl)

theorem decode_encode_graph (g : Graph) : decodeGraph (encodeGraph g) = some g := by
  show (do
    let ev ← decodeEvidenceMap
      [("evidence", Json.obj (g.Evidence.map (fun p => (p.1, encodeEvidenceNode p.2)))),
       ("claims", Json.obj (g.Claims.map (fun p => (p.1, encodeClaimNode p.2)))),
       ("edges", Json.arr (g.Edges.map encodeEdge))]
    let cl ← decodeClaimsMap
      [("evidence", Json.obj (g.Evidence.map (fun p => (p.1, encodeEvidenceNode p.2)))),
       ("claims", Json.obj (g.Claims.map (fun p => (p.1, encodeClaimNode p.2)))),
       ("edges", Json.arr (g.Edges.map encodeEdge))]
    let ed ← decodeEdgeList
      [("evidence", Json.obj (g.Evidence.map (fun p => (p.1, encodeEvidenceNode p.2)))),
       ("claims", Json.obj (g.Claims.map (fun p => (p.1, encodeClaimNode p.2)))),
       ("edges", Json.arr (g.Edges.map encodeEdge))]
    some { Evidence := ev, Claims := cl, Edges := ed }) = some g
  rw [decode_encode_evidenceMap, decode_encode_claimsMap, decode_encode_edgeList]
  rfl

/-- C3: saving a graph and constructing a store from the saved snapshot
yields a graph with the same claim, evidence and edge counts, and every
node — looked up by any id — is recovered with all its fields intact. -/
theorem save_load_roundtrip (g : Graph) :
    ∃ g', Store.New (some (Store.Save g)) = some g' ∧
      g'.Claims.length = g.Claims.length ∧
      g'.Evidence.length = g.Evidence.length ∧
      g'.Edges.length = g.Edges.length ∧
      (∀ id, g'.GetClaim id = g.GetClaim id) ∧
      (∀ id, g'.GetEvidence id = g.GetEvidence id) ∧
      g'.Edges = g.Edges := by
  refine ⟨g, ?_, rfl, rfl, rfl, fun _ => rfl, fun _ => rfl, rfl⟩
  show Store.load Graph.New (some (encodeGraph g)) = some g
  show decodeGraph (encodeGraph g) = some g
  exact decode_encode_graph g

theorem AddEvidence_snd_Claims (g : Graph) (fp lr gc id : String) (now : Nat) :
    (g.AddEvidence fp lr gc id now).2.Claims = g.Claims := by
  unfold Graph.AddEvidence
  split_ifs <;> rfl

theorem AddEvidence_snd_Edges (g : Graph) (fp lr gc id : String) (now : Nat) :
    (g.AddEvidence fp lr gc id now).2.Edges = g.Edges := by
  unfold Graph.AddEvidence
  split_ifs <;> rfl

theorem LinkEvidence_ok_inv (g : Graph) (c e : String) (g' : Graph)
    (h : g.LinkEvidence c e = Except.ok g') :
    g' = { g with Edges := g.Edges ++ [{ ClaimID := c, EvidenceID := e }] } := by
  unfold Graph.LinkEvidence at h
  split_ifs at h
  exact (Except.ok.inj h).symm

theorem applyOp_link_maps (g : Graph) (c e : String) :
    (applyOp g (Op.linkEvidence c e)).Claims = g.Claims ∧
    (applyOp g (Op.linkEvidence c e)).Evidence = g.Evidence := by
  rcases h : g.LinkEvidence c e with err | g'
  · simp [applyOp, h]
  · have hg := LinkEvidence_ok_inv g c e g' h
    simp [applyOp, h, hg]

theorem DeleteClaim_snd_Evidence (g : Graph) (id : String) :
    (g.DeleteClaim id).2.Evidence = g.Evidence := by
  unfold Graph.DeleteClaim
  split_ifs <;> rfl

theorem DeleteEvidence_snd_Claims (g : Graph) (id : String) :
    (g.DeleteEvidence id).2.Claims = g.Claims := by
  unfold Graph.DeleteEvidence
  split_ifs <;> rfl

theorem UpdateClaim_snd_Evidence (g : Graph) (id c : String) :
    (g.UpdateClaim id c).2.Evidence = g.Evidence := by
  unfold Graph.UpdateClaim
  cases h : List.lookup id g.Claims <;> simp

theorem keys_mapInsert {α : Type} (m : List (String × α)) (k : String) (v : α) :
    ∀ x ∈ (mapInsert m k v).map Prod.fst, x ∈ m.map Prod.fst ∨ x = k := by
  induction m with
  | nil => simp [mapInsert]
  | cons p rest ih =>
    obtain ⟨ka, va⟩ := p
    by_cases hk : ka = k
    · simp [mapInsert, hk]
      tauto
    · intro x hx
      simp [mapInsert, hk] at hx
      rcases hx with hx | hx
      · simp [hx]
      · rcases ih x (by simpa using hx) with h | h
        · simp [h]
        · simp [h]

theorem keys_mapErase {α : Type} (m : List (String × α)) (k : String) :
    ∀ x ∈ (mapErase m k).map Prod.fst, x ∈ m.map Prod.fst := by
  induction m with
  | nil => simp [mapErase]
  | cons p rest ih =>
    obtain ⟨ka, va⟩ := p
    by_cases hk : ka = k
    · intro x hx
      simp [mapErase, hk] at hx
      simp [ih x (by simpa using hx)]
    · intro x hx
      simp [mapErase, hk] at hx
      rcases hx with hx | hx
      · simp [hx]
      · simp [ih x (by simpa using hx)]

theorem AddEvidence_snd_Evidence_cases (g : Graph) (fp lr gc d : String) (now : Nat) :
    (g.AddEvidence fp lr gc d now).2.Evidence = g.Evidence ∨
    (g.AddEvidence fp lr gc d now).2.Evidence = mapInsert g.Evidence d
      { ID := d, FilePath := fp, LineRef := lr, GitCommit := gc, CreatedAt := now } := by
  unfold Graph.AddEvidence
  split_ifs <;> simp

theorem step_claims_some (g : Graph) (op : Op)
    (hf : ∀ d ∈ opDraws op, d ∉ allIds g) (x : String) (n : ClaimNode)
    (hx : List.lookup x g.Claims = some n) :
    List.lookup x (applyOp g op).Claims = none ∨
    ∃ n', List.lookup x (applyOp g op).Claims = some n' ∧
      n'.ID = n.ID ∧ n'.CreatedAt = n.CreatedAt := by
  have hxa : x ∈ allIds g :=
    List.mem_append.mpr (Or.inr (lookup_mem_keys _ _ _ hx))
  cases op with
  | addEvidence fp lr gc d now =>
    right
    refine ⟨n, ?_, rfl, rfl⟩
    show List.lookup x (g.AddEvidence fp lr gc d now).2.Claims = some n
    rw [AddEvidence_snd_Claims]
    exact hx
  | addClaim content d now =>
    right
    have hdx : x ≠ d := by
      intro hxd
      exact hf d (by simp [opDraws]) (hxd ▸ hxa)
    refine ⟨n, ?_, rfl, rfl⟩
    show List.lookup x (mapInsert g.Claims d
      { ID := d, Content := content, CreatedAt := now }) = some n
    rw [lookup_mapInsert_ne _ _ _ _ hdx]
    exact hx
  | linkEvidence c e =>
    right
    exact ⟨n, by rw [(applyOp_link_maps g c e).1]; exact hx, rfl, rfl⟩
  | deleteClaim y =>
    by_cases hy : (List.lookup y g.Claims).isSome
    · have hC : (applyOp g (Op.deleteClaim y)).Claims = mapErase g.Claims y := by
        simp [applyOp, Graph.DeleteClaim, hy]
      by_cases hxy : x = y
      · left
        rw [hC, hxy]
        exact lookup_mapErase_self _ _
      · right
        exact ⟨n, by rw [hC, lookup_mapErase_ne _ _ _ hxy]; exact hx, rfl, rfl⟩
    · have hC : applyOp g (Op.deleteClaim y) = g := by
        simp [applyOp, Graph.DeleteClaim, hy]
      right
      exact ⟨n, by rw [hC]; exact hx, rfl, rfl⟩
  | deleteEvidence y =>
    right
    refine ⟨n, ?_, rfl, rfl⟩
    show List.lookup x (g.DeleteEvidence y).2.Claims = some n
    rw [DeleteEvidence_snd_Claims]
    exact hx
  | updateClaim y c =>
    cases hy : List.lookup y g.Claims with
    | none =>
      have hC : applyOp g (Op.updateClaim y c) = g := by
        simp [applyOp, Graph.UpdateClaim, hy]
      right
      exact ⟨n, by rw [hC]; exact hx, rfl, rfl⟩
    | some cy =>
      have hC : (applyOp g (Op.updateClaim y c)).Claims =
          mapInsert g.Claims y { cy with Content := c } := by
        simp [applyOp, Graph.UpdateClaim, hy]
      by_cases hxy : x = y
      · subst hxy
        have hncy : cy = n := by
          rw [hx] at hy
          exact (Option.some.inj hy).symm
        right
        refine ⟨{ cy with Content := c }, ?_, by rw [hncy], by rw [hncy]⟩
        rw [hC]
        exact lookup_mapInsert_self _ _ _
      · right
        exact ⟨n, by rw [hC, lookup_mapInsert_ne _ _ _ _ hxy]; exact hx, rfl, rfl⟩

theorem step_claims_none (g : Graph) (op : Op) (x : String)
    (hd : ∀ d ∈ opDraws op, d ≠ x)
    (hx : List.lookup x g.Claims = none) :
    List.lookup x (applyOp g op).Claims = none := by
  cases op with
  | addEvidence fp lr gc d now =>
    show List.lookup x (g.AddEvidence fp lr gc d now).2.Claims = none
    rw [AddEvidence_snd_Claims]
    exact hx
  | addClaim content d now =>
    have hdx : x ≠ d := fun hxd => hd d (by simp [opDraws]) hxd.symm
    show List.lookup x (mapInsert g.Claims d
      { ID := d, Content := content, CreatedAt := now }) = none
    rw [lookup_mapInsert_ne _ _ _ _ hdx]
    exact hx
  | linkEvidence c e =>
    rw [(applyOp_link_maps g c e).1]
    exact hx
  | deleteClaim y =>
    by_cases hy : (List.lookup y g.Claims).isSome
    · have hC : (applyOp g (Op.deleteClaim y)).Claims = mapErase g.Claims y := by
        simp [applyOp, Graph.DeleteClaim, hy]
      by_cases hxy : x = y
      · rw [hC, hxy]
        exact lookup_mapErase_self _ _
      · rw [hC, lookup_mapErase_ne _ _ _ hxy]
        exact hx
    · have hC : applyOp g (Op.deleteClaim y) = g := by
        simp [applyOp, Graph.DeleteClaim, hy]
      rw [hC]
      exact hx
  | deleteEvidence y =>
    show List.lookup x (g.DeleteEvidence y).2.Claims = none
    rw [DeleteEvidence_snd_Claims]
    exact hx
  | updateClaim y c =>
    cases hy : List.lookup y g.Claims with
    | none =>
      have hC : applyOp g (Op.updateClaim y c) = g := by
        simp [applyOp, Graph.UpdateClaim, hy]
      rw [hC]
      exact hx
    | some cy =>
      have hC : (applyOp g (Op.updateClaim y c)).Claims =
          mapInsert g.Claims y { cy with Content := c } := by
        simp [applyOp, Graph.UpdateClaim, hy]
      by_cases hxy : x = y
      · subst hxy
        rw [hx] at hy
        cases hy
      · rw [hC, lookup_mapInsert_ne _ _ _ _ hxy]
        exact hx

theorem step_evidence_some (g : Graph) (op : Op)
    (hf : ∀ d ∈ opDraws op, d ∉ allIds g) (x : String) (n : EvidenceNode)
    (hx : List.lookup x g.Evidence = some n) :
    List.lookup x (applyOp g op).Evidence = some n ∨
    List.lookup x (applyOp g op).Evidence = none := by
  have hxa : x ∈ allIds g :=
    List.mem_append.mpr (Or.inl (lookup_mem_keys _ _ _ hx))
  cases op with
  | addEvidence fp lr gc d now =>
    left
    have hdx : x ≠ d := by
      intro hxd
      exact hf d (by simp [opDraws]) (hxd ▸ hxa)
    show List.lookup x (g.AddEvidence fp lr gc d now).2.Evidence = some n
    rcases AddEvidence_snd_Evidence_cases g fp lr gc d now with hE | hE
    · rw [hE]
      exact hx
    · rw [hE, lookup_mapInsert_ne _ _ _ _ hdx]
      exact hx
  | addClaim content d now =>
    left
    exact hx
  | linkEvidence c e =>
    left
    rw [(applyOp_link_maps g c e).2]
    exact hx
  | deleteClaim y =>
    left
    show List.lookup x (g.DeleteClaim y).2.Evidence = some n
    rw [DeleteClaim_snd_Evidence]
    exact hx
  | deleteEvidence y =>
    by_cases hy : (List.lookup y g.Evidence).isSome
    · have hE : (applyOp g (Op.deleteEvidence y)).Evidence = mapErase g.Evidence y := by
        simp [applyOp, Graph.DeleteEvidence, hy]
      by_cases hxy : x = y
      · right
        rw [hE, hxy]
        exact lookup_mapErase_self _ _
      · left
        rw [hE, lookup_mapErase_ne _ _ _ hxy]
        exact hx
    · have hE : applyOp g (Op.deleteEvidence y) = g := by
        simp [applyOp, Graph.DeleteEvidence, hy]
      left
      rw [hE]
      exact hx
  | updateClaim y c =>
    left
    show List.lookup x (g.UpdateClaim y c).2.Evidence = some n
    rw [UpdateClaim_snd_Evidence]
    exact hx

theorem step_evidence_none (g : Graph) (op : Op) (x : String)
    (hd : ∀ d ∈ opDraws op, d ≠ x)
    (hx : List.lookup x g.Evidence = none) :
    List.lookup x (applyOp g op).Evidence = none := by
  cases op with
  | addEvidence fp lr gc d now =>
    have hdx : x ≠ d := fun hxd => hd d (by simp [opDraws]) hxd.symm
    show List.lookup x (g.AddEvidence fp lr gc d now).2.Evidence = none
    rcases AddEvidence_snd_Evidence_cases g fp lr gc d now with hE | hE
    · rw [hE]
      exact hx
    · rw [hE, lookup_mapInsert_ne _ _ _ _ hdx]
      exact hx
  | addClaim content d now =>
    exact hx
  | linkEvidence c e =>
    rw [(applyOp_link_maps g c e).2]
    exact hx
  | deleteClaim y =>
    show List.lookup x (g.DeleteClaim y).2.Evidence = none
    rw [DeleteClaim_snd_Evidence]
    exact hx
  | deleteEvidence y =>
    by_cases hy : (List.lookup y g.Evidence).isSome
    · have hE : (applyOp g (Op.deleteEvidence y)).Evidence = mapErase g.Evidence y := by
        simp [applyOp, Graph.DeleteEvidence, hy]
      by_cases hxy : x = y
      · rw [hE, hxy]
        exact lookup_mapErase_self _ _
      · rw [hE, lookup_mapErase_ne _ _ _ hxy]
        exact hx
    · have hE : applyOp g (Op.deleteEvidence y) = g := by
        simp [applyOp, Graph.DeleteEvidence, hy]
      rw [hE]
      exact hx
  | updateClaim y c =>
    show List.lookup x (g.UpdateClaim y c).2.Evidence = none
    rw [UpdateClaim_snd_Evidence]
    exact hx

theorem DeleteClaim_snd_Claims_cases (g : Graph) (id : String) :
    (g.DeleteClaim id).2.Claims = g.Claims ∨
    (g.DeleteClaim id).2.Claims = mapErase g.Claims id := by
  unfold Graph.DeleteClaim
  split_ifs <;> simp

theorem DeleteEvidence_snd_Evidence_cases (g : Graph) (id : String) :
    (g.DeleteEvidence id).2.Evidence = g.Evidence ∨
    (g.DeleteEvidence id).2.Evidence = mapErase g.Evidence id := by
  unfold Graph.DeleteEvidence
  split_ifs <;> simp

theorem UpdateClaim_snd_Claims_cases (g : Graph) (id c : String) :
    (g.UpdateClaim id c).2.Claims = g.Claims ∨
    ∃ cy, List.lookup id g.Claims = some cy ∧
      (g.UpdateClaim id c).2.Claims = mapInsert g.Claims id { cy with Content := c } := by
  cases h : List.lookup id g.Claims with
  | none =>
    left
    simp [Graph.UpdateClaim, h]
  | some cy =>
    right
    exact ⟨cy, rfl, by simp [Graph.UpdateClaim, h]⟩

theorem allIds_applyOp (g : Graph) (op : Op) :
    ∀ x ∈ allIds (applyOp g op), x ∈ allIds g ∨ x ∈ opDraws op := by
  intro x hx
  cases op with
  | addEvidence fp lr gc d now =>
    simp only [applyOp] at hx
    rcases List.mem_append.mp hx with hE | hC
    · rcases AddEvidence_snd_Evidence_cases g fp lr gc d now with h | h
      · rw [h] at hE
        exact Or.inl (List.mem_append.mpr (Or.inl hE))
      · rw [h] at hE
        rcases keys_mapInsert _ _ _ x hE with h' | h'
        · exact Or.inl (List.mem_append.mpr (Or.inl h'))
        · exact Or.inr (by simp [opDraws, h'])
    · rw [AddEvidence_snd_Claims] at hC
      exact Or.inl (List.mem_append.mpr (Or.inr hC))
  | addClaim content d now =>
    simp only [applyOp] at hx
    rcases List.mem_append.mp hx with hE | hC
    · exact Or.inl (List.mem_append.mpr (Or.inl hE))
    · have hC' : x ∈ (mapInsert g.Claims d
        { ID := d, Content := content, CreatedAt := now }).map Prod.fst := hC
      rcases keys_mapInsert _ _ _ x hC' with h' | h'
      · exact Or.inl (List.mem_append.mpr (Or.inr h'))
      · exact Or.inr (by simp [opDraws, h'])
  | linkEvidence c e =>
    rcases List.mem_append.mp hx with hE | hC
    · rw [(applyOp_link_maps g c e).2] at hE
      exact Or.inl (List.mem_append.mpr (Or.inl hE))
    · rw [(applyOp_link_maps g c e).1] at hC
      exact Or.inl (List.mem_append.mpr (Or.inr hC))
  | deleteClaim y =>
    simp only [applyOp] at hx
    rcases List.mem_append.mp hx with hE | hC
    · rw [DeleteClaim_snd_Evidence] at hE
      exact Or.inl (List.mem_append.mpr (Or.inl hE))
    · rcases DeleteClaim_snd_Claims_cases g y with h | h
      · rw [h] at hC
        exact Or.inl (List.mem_append.mpr (Or.inr hC))
      · rw [h] at hC
        exact Or.inl (List.mem_append.mpr (Or.inr (keys_mapErase _ _ x hC)))
  | deleteEvidence y =>
    simp only [applyOp] at hx
    rcases List.mem_append.mp hx with hE | hC
    · rcases DeleteEvidence_snd_Evidence_cases g y with h | h
      · rw [h] at hE
        exact Or.inl (List.mem_append.mpr (Or.inl hE))
      · rw [h] at hE
        exact Or.inl (List.mem_append.mpr (Or.inl (keys_mapErase _ _ x hE)))
    · rw [DeleteEvidence_snd_Claims] at hC
      exact Or.inl (List.mem_append.mpr (Or.inr hC))
  | updateClaim y c =>
    simp only [applyOp] at hx
    rcases List.mem_append.mp hx with hE | hC
    · rw [UpdateClaim_snd_Evidence] at hE
      exact Or.inl (List.mem_append.mpr (Or.inl hE))
    · rcases UpdateClaim_snd_Claims_cases g y c with h | ⟨cy, hcy, h⟩
      · rw [h] at hC
        exact Or.inl (List.mem_append.mpr (Or.inr hC))
      · rw [h] at hC
        rcases keys_mapInsert _ _ _ x hC with h' | h'
        · exact Or.inl (List.mem_append.mpr (Or.inr h'))
        · exact Or.inl (List.mem_append.mpr (Or.inr (h' ▸ lookup_mem_keys _ _ _ hcy)))

theorem allIds_applyTrace (ops : List Op) :
    ∀ g : Graph, ∀ x ∈ allIds (applyTrace g ops), x ∈ allIds g ++ allDraws ops := by
  induction ops with
  | nil =>
    intro g x hx
    simpa [allDraws] using hx
  | cons op rest ih =>
    intro g x hx
    have h1 := ih (applyOp g op) x hx
    have hgoal : x ∈ allIds g ++ (opDraws op ++ allDraws rest) := by
      rcases List.mem_append.mp h1 with h | h
      · rcases allIds_applyOp g op x h with h' | h'
        · exact List.mem_append.mpr (Or.inl h')
        · exact List.mem_append.mpr (Or.inr (List.mem_append.mpr (Or.inl h')))
      · exact List.mem_append.mpr (Or.inr (List.mem_append.mpr (Or.inr h)))
    exact hgoal

theorem traceFresh_cons (used : List String) (op : Op) (rest : List Op)
    (h : traceFresh used (op :: rest) = true) :
    (∀ d ∈ opDraws op, d ∉ used) ∧ traceFresh (used ++ opDraws op) rest = true := by
  simp only [traceFresh, Bool.and_eq_true] at h
  refine ⟨?_, h.2⟩
  intro d hd
  have h3 := (List.all_eq_true.mp h.1) d hd
  simpa using h3

theorem traceFresh_append (l1 : List Op) :
    ∀ (used : List String) (l2 : List Op),
      traceFresh used (l1 ++ l2) = true →
      traceFresh (used ++ allDraws l1) l2 = true := by
  induction l1 with
  | nil =>
    intro used l2 h
    simpa [allDraws] using h
  | cons op l1 ih =>
    intro used l2 h
    have h' := traceFresh_cons used op (l1 ++ l2) h
    have h2 := ih (used ++ opDraws op) l2 h'.2
    have hgoal : traceFresh (used ++ (opDraws op ++ allDraws l1)) l2 = true := by
      rw [← List.append_assoc]
      exact h2
    exact hgoal

theorem trace_pres (ops : List Op) :
    ∀ (g : Graph) (used : List String),
      (∀ x ∈ allIds g, x ∈ used) → traceFresh used ops = true →
      (∀ x n, List.lookup x g.Claims = some n →
        List.lookup x (applyTrace g ops).Claims = none ∨
        ∃ n', List.lookup x (applyTrace g ops).Claims = some n' ∧
          n'.ID = n.ID ∧ n'.CreatedAt = n.CreatedAt) ∧
      (∀ x, x ∈ used → List.lookup x g.Claims = none →
        List.lookup x (applyTrace g ops).Claims = none) ∧
      (∀ x n, List.lookup x g.Evidence = some n →
        List.lookup x (applyTrace g ops).Evidence = some n ∨
        List.lookup x (applyTrace g ops).Evidence = none) ∧
      (∀ x, x ∈ used → List.lookup x g.Evidence = none →
        List.lookup x (applyTrace g ops).Evidence = none) := by
  induction ops with
  | nil =>
    intro g used hk hf
    exact ⟨fun x n h => Or.inr ⟨n, h, rfl, rfl⟩, fun x _ h => h,
           fun x n h => Or.inl h, fun x _ h => h⟩
  | cons op rest ih =>
    intro g used hk hf
    obtain ⟨hf1, hf2⟩ := traceFresh_cons used op rest hf
    have hk1 : ∀ x ∈ allIds (applyOp g op), x ∈ used ++ opDraws op := by
      intro x hx
      rcases allIds_applyOp g op x hx with h | h
      · exact List.mem_append_left _ (hk x h)
      · exact List.mem_append_right _ h
    have IH := ih (applyOp g op) (used ++ opDraws op) hk1 hf2
    have hfg : ∀ d ∈ opDraws op, d ∉ allIds g := fun d hd hmem => hf1 d hd (hk d hmem)
    refine ⟨?_, ?_, ?_, ?_⟩
    · intro x n hx
      rcases step_claims_some g op hfg x n hx with hnone | ⟨n', hn', hid, hca⟩
      · have hxu : x ∈ used ++ opDraws op :=
          List.mem_append_left _
            (hk x (List.mem_append.mpr (Or.inr (lookup_mem_keys _ _ _ hx))))
        exact Or.inl (IH.2.1 x hxu hnone)
      · rcases IH.1 x n' hn' with h2 | ⟨n'', hn'', hid2, hca2⟩
        · exact Or.inl h2
        · exact Or.inr ⟨n'', hn'', hid2.trans hid, hca2.trans hca⟩
    · intro x hxu hx
      have hdx : ∀ d ∈ opDraws op, d ≠ x := fun d hd hdx => hf1 d hd (hdx ▸ hxu)
      exact IH.2.1 x (List.mem_append_left _ hxu) (step_claims_none g op x hdx hx)
    · intro x n hx
      rcases step_evidence_some g op hfg x n hx with hsome | hnone
      · exact IH.2.2.1 x n hsome
      · have hxu : x ∈ used ++ opDraws op :=
          List.mem_append_left _
            (hk x (List.mem_append.mpr (Or.inl (lookup_mem_keys _ _ _ hx))))
        exact Or.inr (IH.2.2.2 x hxu hnone)
    · intro x hxu hx
      have hdx : ∀ d ∈ opDraws op, d ≠ x := fun d hd hdx => hf1 d hd (hdx ▸ hxu)
      exact IH.2.2.2 x (List.mem_append_left _ hxu) (step_evidence_none g op x hdx hx)

/-- C9: along any trace of graph operations whose drawn ids never repeat —
the property `newID`'s 128-bit random draws provide — an id assigned to a
node is never reused and never mutated: a claim stored at the end of a
prefix keeps its `ID` and `CreatedAt` for the rest of the trace unless it
is deleted, a deleted or never-assigned id stays absent, and an evidence
node is preserved verbatim until deleted. -/
theorem ids_never_reused_or_mutated (g : Graph) (ops1 ops2 : List Op)
    (h : traceFresh (allIds g) (ops1 ++ ops2) = true) :
    (∀ x n, List.lookup x (applyTrace g ops1).Claims = some n →
      List.lookup x (applyTrace g (ops1 ++ ops2)).Claims = none ∨
      ∃ n', List.lookup x (applyTrace g (ops1 ++ ops2)).Claims = some n' ∧
        n'.ID = n.ID ∧ n'.CreatedAt = n.CreatedAt) ∧
    (∀ x, x ∈ allIds g ++ allDraws ops1 →
      List.lookup x (applyTrace g ops1).Claims = none →
      List.lookup x (applyTrace g (ops1 ++ ops2)).Claims = none) ∧
    (∀ x n, List.lookup x (applyTrace g ops1).Evidence = some n →
      List.lookup x (applyTrace g (ops1 ++ ops2)).Evidence = some n ∨
      List.lookup x (applyTrace g (ops1 ++ ops2)).Evidence = none) ∧
    (∀ x, x ∈ allIds g ++ allDraws ops1 →
      List.lookup x (applyTrace g ops1).Evidence = none →
      List.lookup x (applyTrace g (ops1 ++ ops2)).Evidence = none) := by
  have happ : applyTrace g (ops1 ++ ops2) = applyTrace (applyTrace g ops1) ops2 := by
    simp [applyTrace, List.foldl_append]
  have hf2 := traceFresh_append ops1 (allIds g) ops2 h
  have hk := allIds_applyTrace ops1 g
  have H := trace_pres ops2 (applyTrace g ops1) (allIds g ++ allDraws ops1) hk hf2
  rw [happ]
  exact H

/-- Witness for C9: a concrete two-operation trace with distinct draws. -/
theorem ids_never_reused_witness :
    List.lookup "id1" (applyTrace Graph.New
      ([Op.addClaim "auth works" "id1" 0] ++
       [Op.addEvidence "/a.go" "1-2" "c1" "id2" 1])).Claims = none ∨
    ∃ n', List.lookup "id1" (applyTrace Graph.New
      ([Op.addClaim "auth works" "id1" 0] ++
       [Op.addEvidence "/a.go" "1-2" "c1" "id2" 1])).Claims = some n' ∧
      n'.ID = ({ ID := "id1", Content := "auth works", CreatedAt := 0 } : ClaimNode).ID ∧
      n'.CreatedAt =
        ({ ID := "id1", Content := "auth works", CreatedAt := 0 } : ClaimNode).CreatedAt :=
  (ids_never_reused_or_mutated Graph.New [Op.addClaim "auth works" "id1" 0]
    [Op.addEvidence "/a.go" "1-2" "c1" "id2" 1] (by decide)).1 "id1"
    { ID := "id1", Content := "auth works", CreatedAt := 0 } (by decide)
